import Mathlib

/-!
Shallow embedding of the numerical core of the repository: the shared
standard-normal CDF/PDF approximation, the three Black-Scholes call pricers
(from black_scholes_option_calculator.py, fetch_okx_eth_options.py and
option_formula_no_rate.py), the expected-intrinsic-value formulas, the
bisection implied-volatility solver of fetch_okx_eth_options.py, and the
multi-window volatility scanner of calculate_multi_timeframe_volatility.py.

Python floats are modelled as real numbers.  Fallible code (Python raising
ZeroDivisionError on float division by zero, or a math domain error from
math.log on a non-positive argument) is modelled with Option: none marks an
input on which the Python function raises instead of returning.
-/

noncomputable section

namespace Binance

/-- Horner polynomial ((((a5*t + a4)*t + a3)*t + a2)*t + a1)*t with the
Abramowitz-Stegun constants a1..a5 shared by the identical normal_cdf
implementations of the three scripts. -/
def cdfPoly (t : ℝ) : ℝ :=
  ((((1.061405429 * t + -1.453152027) * t + 1.421413741) * t + -0.284496736) * t
    + 0.254829592) * t

/-- normal_cdf, identical in black_scholes_option_calculator.py,
fetch_okx_eth_options.py and option_formula_no_rate.py: sign is 1 for x ≥ 0
and -1 for x < 0, the argument is rescaled to |x|/√2, t = 1/(1 + p·x'),
and the result is 0.5·(1 + sign·(1 - poly(t)·exp(-x'·x'))). -/
def normal_cdf (x : ℝ) : ℝ :=
  0.5 * (1 + (if x < 0 then (-1 : ℝ) else 1) *
    (1 - cdfPoly (1 / (1 + 0.3275911 * (|x| / Real.sqrt 2))) *
      Real.exp (-(|x| / Real.sqrt 2) * (|x| / Real.sqrt 2))))

/-- normal_pdf from black_scholes_option_calculator.py and
option_formula_no_rate.py: (1/√(2π))·exp(-0.5·x·x). -/
def normal_pdf (x : ℝ) : ℝ :=
  1 / Real.sqrt (2 * Real.pi) * Real.exp (-0.5 * x * x)

/-- d1 as computed by the two rate-carrying pricers:
(log(S/K) + (r + 0.5·σ²)·T) / (σ·√T). -/
def bs_d1 (S K T r sigma : ℝ) : ℝ :=
  (Real.log (S / K) + (r + 0.5 * sigma ^ 2) * T) / (sigma * Real.sqrt T)

/-- d2 = d1 - σ·√T. -/
def bs_d2 (S K T r sigma : ℝ) : ℝ :=
  bs_d1 S K T r sigma - sigma * Real.sqrt T

/-- black_scholes_call of black_scholes_option_calculator.py.  After the
T ≤ 0 guard it computes d1 unguarded, so math.log raises on S/K ≤ 0 (or the
division S/K itself raises on K = 0), and the division by σ·√T raises
ZeroDivisionError when σ = 0 - there is no σ = 0 fallback in this variant. -/
def black_scholes_call_calc (S K T r sigma : ℝ) : Option ℝ :=
  if T ≤ 0 then some (max (S - K) 0)
  else if S / K ≤ 0 then none
  else if sigma * Real.sqrt T = 0 then none
  else some (S * normal_cdf (bs_d1 S K T r sigma)
      - K * Real.exp (-(r * T)) * normal_cdf (bs_d2 S K T r sigma))

/-- black_scholes_call of fetch_okx_eth_options.py.  T ≤ 0 and σ = 0 both
fall back to the intrinsic value; otherwise the only failure left is the
log/division on S/K ≤ 0 (σ ≠ 0 and T > 0 make σ·√T nonzero).  Note that the
source multiplies BOTH legs by exp(-r·T):
S·Φ(d1)·e^(-rT) - K·Φ(d2)·e^(-rT). -/
def black_scholes_call_okx (S K T r sigma : ℝ) : Option ℝ :=
  if T ≤ 0 then some (max (S - K) 0)
  else if sigma = 0 then some (max (S - K) 0)
  else if S / K ≤ 0 then none
  else some (S * normal_cdf (bs_d1 S K T r sigma) * Real.exp (-(r * T))
      - K * normal_cdf (bs_d2 S K T r sigma) * Real.exp (-(r * T)))

/-- d1 of black_scholes_call_no_rate: (log(S/K) + 0.5·σ²·T)/(σ·√T). -/
def bs_d1_no_rate (S K T sigma : ℝ) : ℝ :=
  (Real.log (S / K) + 0.5 * sigma ^ 2 * T) / (sigma * Real.sqrt T)

/-- d2 of black_scholes_call_no_rate. -/
def bs_d2_no_rate (S K T sigma : ℝ) : ℝ :=
  bs_d1_no_rate S K T sigma - sigma * Real.sqrt T

/-- black_scholes_call_no_rate of option_formula_no_rate.py. -/
def black_scholes_call_no_rate (S K T sigma : ℝ) : Option ℝ :=
  if T ≤ 0 then some (max (S - K) 0)
  else if sigma = 0 then some (max (S - K) 0)
  else if S / K ≤ 0 then none
  else some (S * normal_cdf (bs_d1_no_rate S K T sigma)
      - K * normal_cdf (bs_d2_no_rate S K T sigma))

/-- Body of the OKX black_scholes_call as a total function, used inside the
implied-volatility solver where the solver's own input checks (S > 0, K > 0)
rule the error branch out. -/
def bs_call_okxT (S K T r sigma : ℝ) : ℝ :=
  if T ≤ 0 then max (S - K) 0
  else if sigma = 0 then max (S - K) 0
  else S * normal_cdf (bs_d1 S K T r sigma) * Real.exp (-(r * T))
      - K * normal_cdf (bs_d2 S K T r sigma) * Real.exp (-(r * T))

/-- black_scholes_put of fetch_okx_eth_options.py via put-call parity:
put = call - S + K·e^(-rT). -/
def bs_put_okxT (S K T r sigma : ℝ) : ℝ :=
  bs_call_okxT S K T r sigma - S + K * Real.exp (-(r * T))

/-- The bisection loop of calculate_implied_volatility: fuel counts the
remaining iterations; on exhaustion the midpoint (vol_low + vol_high)/2 is
returned. -/
def bisect (price : ℝ → ℝ) (marketPrice tol : ℝ) : ℕ → ℝ → ℝ → ℝ
  | 0, volLow, volHigh => (volLow + volHigh) / 2
  | fuel + 1, volLow, volHigh =>
    if |price ((volLow + volHigh) / 2) - marketPrice| < tol then
      (volLow + volHigh) / 2
    else if price ((volLow + volHigh) / 2) < marketPrice then
      bisect price marketPrice tol fuel ((volLow + volHigh) / 2) volHigh
    else
      bisect price marketPrice tol fuel volLow ((volLow + volHigh) / 2)

/-- calculate_implied_volatility of fetch_okx_eth_options.py with the default
max_iterations = 100 and tolerance = 1e-6 (every call site uses the
defaults).  T is floored to one hour in year units, the input checks return
none (Python None), a market price below the σ = 0.001 price returns 0.001
directly, the upper bound is widened from 5.0 to 10.0 when the market price
exceeds the σ = 5.0 price, and otherwise the bisection runs.  isCall models
option_type.upper() == "CALL"; anything else is treated as a put. -/
def calculate_implied_volatility (marketPrice S K T r : ℝ) (isCall : Bool) :
    Option ℝ :=
  let T' := max T (1 / (365 * 24))
  if T' ≤ 0 ∨ marketPrice ≤ 0 ∨ S ≤ 0 ∨ K ≤ 0 then none
  else if marketPrice < (if isCall then max (S - K) 0 else max (K - S) 0) then
    none
  else
    let price := fun v =>
      if isCall then bs_call_okxT S K T' r v else bs_put_okxT S K T' r v
    if marketPrice < price 0.001 then some 0.001
    else
      some (bisect price marketPrice 1e-6 100 0.001
        (if price 5 < marketPrice then 10 else 5))

/-- expected_call_intrinsic_normal, identical in
black_scholes_option_calculator.py and option_formula_no_rate.py:
terminal price S_T ~ N(μ = S0, σ_price = S0·σ·√T), expected payoff
(μ-K)·Φ(d) + σ_price·φ(d) with d = (μ-K)/σ_price, clipped to ≥ 0. -/
def expected_call_intrinsic_normal (S0 K T sigma : ℝ) : ℝ :=
  if T ≤ 0 then max (S0 - K) 0
  else if S0 * sigma * Real.sqrt T = 0 then max (S0 - K) 0
  else max ((S0 - K) * normal_cdf ((S0 - K) / (S0 * sigma * Real.sqrt T))
      + S0 * sigma * Real.sqrt T
        * normal_pdf ((S0 - K) / (S0 * sigma * Real.sqrt T))) 0

/-- expected_put_intrinsic_normal, identical in both files; payoff side
swapped: d = (K-μ)/σ_price. -/
def expected_put_intrinsic_normal (S0 K T sigma : ℝ) : ℝ :=
  if T ≤ 0 then max (K - S0) 0
  else if S0 * sigma * Real.sqrt T = 0 then max (K - S0) 0
  else max ((K - S0) * normal_cdf ((K - S0) / (S0 * sigma * Real.sqrt T))
      + S0 * sigma * Real.sqrt T
        * normal_pdf ((K - S0) / (S0 * sigma * Real.sqrt T))) 0

/-- Percentage returns of calculate_multi_timeframe_volatility.py for a
window w: [(P[i] - P[i-w]) / P[i-w] * 100 for i in range(w, len(P))]. -/
def pctReturns (P : List ℝ) (w : ℕ) : List ℝ :=
  (List.range' w (P.length - w)).map fun i =>
    (P.getD i 0 - P.getD (i - w) 0) / P.getD (i - w) 0 * 100

/-- statistics.mean: arithmetic mean. -/
def listMean (xs : List ℝ) : ℝ := xs.sum / xs.length

/-- Sample variance with n-1 denominator (the square of statistics.stdev). -/
def sampleVariance (xs : List ℝ) : ℝ :=
  (xs.map fun x => (x - listMean xs) ^ 2).sum / ((xs.length : ℝ) - 1)

/-- statistics.stdev: square root of the sample variance. -/
def sampleStdev (xs : List ℝ) : ℝ := Real.sqrt (sampleVariance xs)

/-- One output record of the volatility scanner (the derived display field
Window_Days = round(window/1440, 4) is omitted; it carries no information
beyond window). -/
structure VolRecord where
  window : ℕ
  meanPct : ℝ
  stdDevPct : ℝ
  sampleCount : ℕ

/-- The scanner's main loop: for window = start, start+1, ... (fuel bounds
the number of iterations, matching range(1, max_window + 1)), break as soon
as window > len(P); a window with at least two returns records mean and
sample stdev, exactly one return records that return with stdev 0.0, an
empty return list records nothing. -/
def scanLoop (P : List ℝ) : ℕ → ℕ → List VolRecord
  | 0, _ => []
  | fuel + 1, window =>
    if P.length < window then []
    else
      (if 1 < (pctReturns P window).length then
        [⟨window, listMean (pctReturns P window),
          sampleStdev (pctReturns P window), (pctReturns P window).length⟩]
      else if (pctReturns P window).length = 1 then
        [⟨window, (pctReturns P window).headI, 0, 1⟩]
      else []) ++ scanLoop P fuel (window + 1)

/-- Output of the scanner for price list P and maximum window maxWindow. -/
def scanRecords (P : List ℝ) (maxWindow : ℕ) : List VolRecord :=
  scanLoop P maxWindow 1

/-- Modelled from the claim's words (spec section 4.5): the record prescribed
for window w - mean and sample standard deviation when at least two returns
exist, the single return with standard deviation 0.0 when exactly one does,
and nothing when none do. -/
def specWindowRecord (P : List ℝ) (w : ℕ) : Option VolRecord :=
  if 2 ≤ (pctReturns P w).length then
    some ⟨w, listMean (pctReturns P w), sampleStdev (pctReturns P w),
      (pctReturns P w).length⟩
  else if (pctReturns P w).length = 1 then
    some ⟨w, (pctReturns P w).headI, 0, 1⟩
  else none

/-- Modelled from the claim's words: one prescribed record per window size w
from 1 to min(W, N). -/
def specScan (P : List ℝ) (W : ℕ) : List VolRecord :=
  (List.range' 1 (min W P.length)).filterMap (specWindowRecord P)

/-- The call price formula exactly as claim C1 words it:
S·Φ(d1) - K·e^(-rT)·Φ(d2). -/
def bs_call_claim_formula (S K T r sigma : ℝ) : ℝ :=
  S * normal_cdf (bs_d1 S K T r sigma)
    - K * Real.exp (-(r * T)) * normal_cdf (bs_d2 S K T r sigma)

/-- Modelled from the claim's words (C7): the case analysis of the expected
call intrinsic value. -/
def expected_call_intrinsic_spec (S0 K T sigma : ℝ) : ℝ :=
  if T ≤ 0 then max (S0 - K) 0
  else if S0 * sigma * Real.sqrt T = 0 then max (S0 - K) 0
  else max ((S0 - K) * normal_cdf ((S0 - K) / (S0 * sigma * Real.sqrt T))
      + S0 * sigma * Real.sqrt T
        * normal_pdf ((S0 - K) / (S0 * sigma * Real.sqrt T))) 0

/-- Modelled from the claim's words (C7), put side: K and S0 exchanged in the
payoff. -/
def expected_put_intrinsic_spec (S0 K T sigma : ℝ) : ℝ :=
  if T ≤ 0 then max (K - S0) 0
  else if S0 * sigma * Real.sqrt T = 0 then max (K - S0) 0
  else max ((K - S0) * normal_cdf ((K - S0) / (S0 * sigma * Real.sqrt T))
      + S0 * sigma * Real.sqrt T
        * normal_pdf ((K - S0) / (S0 * sigma * Real.sqrt T))) 0

/-- Symmetric divided-difference polynomial of cdfPoly:
cdfPoly b - cdfPoly a = (b - a) * cdfPolyS a b. -/
def cdfPolyS (a b : ℝ) : ℝ :=
  0.254829592 + -0.284496736 * (a + b) + 1.421413741 * (a^2 + a*b + b^2)
    + -1.453152027 * (a^3 + a^2*b + a*b^2 + b^3)
    + 1.061405429 * (a^4 + a^3*b + a^2*b^2 + a*b^3 + b^4)

lemma cdfPoly_sub_factor (a b : ℝ) :
    cdfPoly b - cdfPoly a = (b - a) * cdfPolyS a b := by
  unfold cdfPoly cdfPolyS; ring

lemma cdfPoly_nonneg {t : ℝ} (h0 : 0 ≤ t) : 0 ≤ cdfPoly t := by
  unfold cdfPoly
  nlinarith [sq_nonneg (t - t^2), sq_nonneg t, sq_nonneg (1 - t),
    mul_nonneg h0 (sq_nonneg (1 - t)), mul_nonneg h0 h0]

lemma cdfPoly_le_one {t : ℝ} (h0 : 0 ≤ t) (h1 : t ≤ 1) : cdfPoly t ≤ 1 := by
  unfold cdfPoly
  nlinarith [sq_nonneg (t - t^2), sq_nonneg t, sq_nonneg (1 - t),
    mul_nonneg h0 (sq_nonneg (1 - t)), mul_nonneg (sub_nonneg.2 h1) (sq_nonneg t),
    mul_nonneg h0 h0]

lemma cdfPolyS_lb_box1 {a b : ℝ} (ha : 0.30 ≤ a) (hab : a ≤ b) (hb : b ≤ 0.37) :
    0.3 ≤ cdfPolyS a b := by
  unfold cdfPolyS
  nlinarith [mul_nonneg (sub_nonneg.2 ha) (sub_nonneg.2 hb),
    mul_nonneg (sub_nonneg.2 ha) (sub_nonneg.2 hab),
    mul_nonneg (sub_nonneg.2 hab) (sub_nonneg.2 hb),
    sq_nonneg (a - 0.33), sq_nonneg (b - 0.33), sq_nonneg (a + b - 0.66),
    mul_nonneg (mul_nonneg (sub_nonneg.2 ha) (sub_nonneg.2 ha)) (sub_nonneg.2 hb)]

lemma cdfPolyS_ub_box1 {a b : ℝ} (ha : 0.30 ≤ a) (hab : a ≤ b) (hb : b ≤ 0.37) :
    cdfPolyS a b ≤ 0.5 := by
  unfold cdfPolyS
  nlinarith [mul_nonneg (sub_nonneg.2 ha) (sub_nonneg.2 hb),
    mul_nonneg (sub_nonneg.2 ha) (sub_nonneg.2 hab),
    mul_nonneg (sub_nonneg.2 hab) (sub_nonneg.2 hb),
    sq_nonneg (a - 0.33), sq_nonneg (b - 0.33), sq_nonneg (a + b - 0.66),
    mul_nonneg (mul_nonneg (sub_nonneg.2 ha) (sub_nonneg.2 ha)) (sub_nonneg.2 hb)]

lemma cdfPolyS_lb_box2 {a b : ℝ} (ha : 0.41 ≤ a) (hab : a ≤ b) (hb : b ≤ 0.82) :
    0.4 ≤ cdfPolyS a b := by
  unfold cdfPolyS
  nlinarith [mul_nonneg (sub_nonneg.2 ha) (sub_nonneg.2 hb),
    mul_nonneg (sub_nonneg.2 ha) (sub_nonneg.2 hab),
    mul_nonneg (sub_nonneg.2 hab) (sub_nonneg.2 hb),
    sq_nonneg (a - 0.6), sq_nonneg (b - 0.6), sq_nonneg (a + b - 1.2),
    mul_nonneg (mul_nonneg (sub_nonneg.2 ha) (sub_nonneg.2 ha)) (sub_nonneg.2 hb)]

lemma cdfPolyS_ub_box3 {a b : ℝ} (ha : 0.34 ≤ a) (hab : a ≤ b) (hb : b ≤ 0.44) :
    cdfPolyS a b ≤ 0.6 := by
  unfold cdfPolyS
  nlinarith [mul_nonneg (sub_nonneg.2 ha) (sub_nonneg.2 hb),
    mul_nonneg (sub_nonneg.2 ha) (sub_nonneg.2 hab),
    mul_nonneg (sub_nonneg.2 hab) (sub_nonneg.2 hb),
    sq_nonneg (a - 0.39), sq_nonneg (b - 0.39), sq_nonneg (a + b - 0.78),
    mul_nonneg (mul_nonneg (sub_nonneg.2 ha) (sub_nonneg.2 ha)) (sub_nonneg.2 hb)]

lemma cdfPolyS_lb_box3 {a b : ℝ} (ha : 0.34 ≤ a) (hab : a ≤ b) (hb : b ≤ 0.44) :
    0.3 ≤ cdfPolyS a b := by
  unfold cdfPolyS
  nlinarith [mul_nonneg (sub_nonneg.2 ha) (sub_nonneg.2 hb),
    mul_nonneg (sub_nonneg.2 ha) (sub_nonneg.2 hab),
    mul_nonneg (sub_nonneg.2 hab) (sub_nonneg.2 hb),
    sq_nonneg (a - 0.39), sq_nonneg (b - 0.39), sq_nonneg (a + b - 0.78),
    mul_nonneg (mul_nonneg (sub_nonneg.2 ha) (sub_nonneg.2 ha)) (sub_nonneg.2 hb)]

lemma xscale_nonneg (x : ℝ) : 0 ≤ |x| / Real.sqrt 2 :=
  div_nonneg (abs_nonneg x) (Real.sqrt_nonneg 2)

lemma tval_pos {x' : ℝ} (hx' : 0 ≤ x') : 0 < 1 / (1 + 0.3275911 * x') := by
  have : (0:ℝ) < 1 + 0.3275911 * x' := by nlinarith
  positivity

lemma tval_le_one {x' : ℝ} (hx' : 0 ≤ x') : 1 / (1 + 0.3275911 * x') ≤ 1 := by
  rw [div_le_one (by nlinarith)]
  nlinarith

lemma normal_cdf_nonneg (x : ℝ) : 0 ≤ normal_cdf x := by
  unfold normal_cdf
  have hx' := xscale_nonneg x
  set x' := |x| / Real.sqrt 2 with hx'def
  have ht0 := tval_pos hx'
  have ht1 := tval_le_one hx'
  have hP0 : 0 ≤ cdfPoly (1 / (1 + 0.3275911 * x')) := cdfPoly_nonneg ht0.le
  have hP1 : cdfPoly (1 / (1 + 0.3275911 * x')) ≤ 1 := cdfPoly_le_one ht0.le ht1
  have hE0 : 0 < Real.exp (-x' * x') := Real.exp_pos _
  have hE1 : Real.exp (-x' * x') ≤ 1 :=
    Real.exp_le_one_iff.2 (by nlinarith)
  have hPE0 : 0 ≤ cdfPoly (1 / (1 + 0.3275911 * x')) * Real.exp (-x' * x') :=
    mul_nonneg hP0 hE0.le
  have hPE1 : cdfPoly (1 / (1 + 0.3275911 * x')) * Real.exp (-x' * x') ≤ 1 := by
    nlinarith
  split_ifs <;> nlinarith

lemma normal_cdf_le_one (x : ℝ) : normal_cdf x ≤ 1 := by
  unfold normal_cdf
  have hx' := xscale_nonneg x
  set x' := |x| / Real.sqrt 2 with hx'def
  have ht0 := tval_pos hx'
  have ht1 := tval_le_one hx'
  have hP0 : 0 ≤ cdfPoly (1 / (1 + 0.3275911 * x')) := cdfPoly_nonneg ht0.le
  have hP1 : cdfPoly (1 / (1 + 0.3275911 * x')) ≤ 1 := cdfPoly_le_one ht0.le ht1
  have hE0 : 0 < Real.exp (-x' * x') := Real.exp_pos _
  have hE1 : Real.exp (-x' * x') ≤ 1 :=
    Real.exp_le_one_iff.2 (by nlinarith)
  have hPE0 : 0 ≤ cdfPoly (1 / (1 + 0.3275911 * x')) * Real.exp (-x' * x') :=
    mul_nonneg hP0 hE0.le
  have hPE1 : cdfPoly (1 / (1 + 0.3275911 * x')) * Real.exp (-x' * x') ≤ 1 := by
    nlinarith
  split_ifs <;> nlinarith

lemma normal_pdf_nonneg (x : ℝ) : 0 ≤ normal_pdf x := by
  unfold normal_pdf
  have h1 : (0:ℝ) ≤ 1 / Real.sqrt (2 * Real.pi) :=
    div_nonneg zero_le_one (Real.sqrt_nonneg _)
  exact mul_nonneg h1 (Real.exp_pos _).le

/-- C8: for every real x the rational-polynomial approximation normal_cdf
returns a value in the closed interval [0, 1], and normal_pdf returns a
nonnegative value. -/
theorem claim_C8_cdf_pdf_range (x : ℝ) :
    0 ≤ normal_cdf x ∧ normal_cdf x ≤ 1 ∧ 0 ≤ normal_pdf x :=
  ⟨normal_cdf_nonneg x, normal_cdf_le_one x, normal_pdf_nonneg x⟩

/-- C7: the expected intrinsic value functions implement exactly the case
analysis the claim states (T ≤ 0 and σ_price = 0 fall back to the plain
intrinsic value, otherwise (μ-K)·Φ(d) + σ_price·φ(d) clipped at 0), and the
result is always nonnegative; symmetrically for the put with K and S0
exchanged in the payoff. -/
theorem claim_C7_expected_intrinsic (S0 K T sigma : ℝ)
    (hS : 0 < S0) (hK : 0 < K) :
    expected_call_intrinsic_normal S0 K T sigma
        = expected_call_intrinsic_spec S0 K T sigma ∧
    expected_put_intrinsic_normal S0 K T sigma
        = expected_put_intrinsic_spec S0 K T sigma ∧
    0 ≤ expected_call_intrinsic_normal S0 K T sigma ∧
    0 ≤ expected_put_intrinsic_normal S0 K T sigma := by
  refine ⟨rfl, rfl, ?_, ?_⟩
  · unfold expected_call_intrinsic_normal
    split_ifs <;> exact le_max_right _ _
  · unfold expected_put_intrinsic_normal
    split_ifs <;> exact le_max_right _ _

theorem claim_C7_expected_intrinsic_witness :
    (0:ℝ) < 1 ∧ (0:ℝ) < 2 ∧
      (expected_call_intrinsic_normal 1 2 1 0
          = expected_call_intrinsic_spec 1 2 1 0 ∧
        expected_put_intrinsic_normal 1 2 1 0
          = expected_put_intrinsic_spec 1 2 1 0 ∧
        0 ≤ expected_call_intrinsic_normal 1 2 1 0 ∧
        0 ≤ expected_put_intrinsic_normal 1 2 1 0) :=
  ⟨by norm_num, by norm_num,
    claim_C7_expected_intrinsic 1 2 1 0 (by norm_num) (by norm_num)⟩

lemma bs_d1_zero_rate (S K T sigma : ℝ) :
    bs_d1 S K T 0 sigma = bs_d1_no_rate S K T sigma := by
  unfold bs_d1 bs_d1_no_rate; ring_nf

lemma bs_d2_zero_rate (S K T sigma : ℝ) :
    bs_d2 S K T 0 sigma = bs_d2_no_rate S K T sigma := by
  unfold bs_d2 bs_d2_no_rate; rw [bs_d1_zero_rate]

/-- C9: with r = 0 and σ > 0 the three call pricers coincide for every
S > 0, K > 0 and every T: the OKX variant's extra discount factor on the S
term and the no-rate variant's omission of r are invisible at r = 0. -/
theorem claim_C9_pricers_coincide_at_zero_rate (S K T sigma : ℝ)
    (hS : 0 < S) (hK : 0 < K) (hsig : 0 < sigma) :
    black_scholes_call_calc S K T 0 sigma = black_scholes_call_okx S K T 0 sigma
      ∧ black_scholes_call_okx S K T 0 sigma
        = black_scholes_call_no_rate S K T sigma := by
  unfold black_scholes_call_calc black_scholes_call_okx black_scholes_call_no_rate
  by_cases hT : T ≤ 0
  · simp [hT]
  · have hSK : ¬ (S / K ≤ 0) := not_le.2 (div_pos hS hK)
    have hs0 : sigma ≠ 0 := ne_of_gt hsig
    have hsT : ¬ (sigma * Real.sqrt T = 0) := by
      have : 0 < Real.sqrt T := Real.sqrt_pos.2 (lt_of_not_le hT)
      positivity
    simp only [hT, hSK, hs0, hsT, if_false, if_neg, if_pos]
    rw [bs_d1_zero_rate, bs_d2_zero_rate]
    constructor <;> · congr 1; simp [Real.exp_zero]

theorem claim_C9_pricers_coincide_witness :
    (0:ℝ) < 1 ∧
      (black_scholes_call_calc 1 1 1 0 1 = black_scholes_call_okx 1 1 1 0 1 ∧
        black_scholes_call_okx 1 1 1 0 1 = black_scholes_call_no_rate 1 1 1 1) :=
  ⟨by norm_num,
    claim_C9_pricers_coincide_at_zero_rate 1 1 1 1 (by norm_num) (by norm_num)
      (by norm_num)⟩

lemma minT_pos {T : ℝ} : ¬ (max T (1 / (365 * 24) : ℝ) ≤ 0) := by
  have h : (1:ℝ) / (365 * 24) ≤ max T (1 / (365 * 24)) := le_max_right _ _
  intro hle
  nlinarith

/-- C3: calculate_implied_volatility returns none exactly when one of
market_price, S, K is ≤ 0 or the market price is strictly below the
intrinsic value; since T is floored to one hour first, a non-positive T
alone never produces none. -/
theorem claim_C3_implied_vol_none_iff (marketPrice S K T r : ℝ)
    (isCall : Bool) :
    calculate_implied_volatility marketPrice S K T r isCall = none ↔
      (marketPrice ≤ 0 ∨ S ≤ 0 ∨ K ≤ 0 ∨
        marketPrice < (if isCall then max (S - K) 0 else max (K - S) 0)) := by
  have hmain : ∀ (intr : ℝ) (price : ℝ → ℝ),
      ((if max T (1 / (365 * 24)) ≤ 0 ∨ marketPrice ≤ 0 ∨ S ≤ 0 ∨ K ≤ 0 then
          none
        else if marketPrice < intr then none
        else if marketPrice < price 0.001 then some (0.001 : ℝ)
        else some (bisect price marketPrice 1e-6 100 0.001
            (if price 5 < marketPrice then 10 else 5))) = none ↔
        (marketPrice ≤ 0 ∨ S ≤ 0 ∨ K ≤ 0 ∨ marketPrice < intr)) := by
    intro intr price
    split_ifs with h1 h2 h3
    · simp only [true_iff]
      rcases h1 with hT | h | h | h
      · exact absurd hT minT_pos
      · exact Or.inl h
      · exact Or.inr (Or.inl h)
      · exact Or.inr (Or.inr (Or.inl h))
    · simp only [true_iff]
      exact Or.inr (Or.inr (Or.inr h2))
    · simp only [reduceCtorEq, false_iff]
      push_neg at h1 h2
      push_neg
      exact ⟨h1.2.1, h1.2.2.1, h1.2.2.2, h2⟩
    · simp only [reduceCtorEq, false_iff]
      push_neg at h1 h2
      push_neg
      exact ⟨h1.2.1, h1.2.2.1, h1.2.2.2, h2⟩
  cases isCall
  · exact hmain (max (K - S) 0)
      (fun v => bs_put_okxT S K (max T (1 / (365 * 24))) r v)
  · exact hmain (max (S - K) 0)
      (fun v => bs_call_okxT S K (max T (1 / (365 * 24))) r v)

lemma bisect_mem {f : ℝ → ℝ} {mp tol : ℝ} :
    ∀ (fuel : ℕ) (lo hi : ℝ), lo ≤ hi →
      lo ≤ bisect f mp tol fuel lo hi ∧ bisect f mp tol fuel lo hi ≤ hi := by
  intro fuel
  induction fuel with
  | zero =>
    intro lo hi h
    constructor <;> · simp only [bisect]; linarith
  | succ n ih =>
    intro lo hi h
    simp only [bisect]
    split_ifs with hcl hlt
    · constructor <;> linarith
    · have hrec := ih ((lo + hi) / 2) hi (by linarith)
      constructor <;> linarith [hrec.1, hrec.2]
    · have hrec := ih lo ((lo + hi) / 2) (by linarith)
      constructor <;> linarith [hrec.1, hrec.2]

/-- C4: whenever calculate_implied_volatility returns a value, that value
lies in [0.001, 10]: the early return is 0.001 and the bisection keeps every
midpoint inside the bounds, which start at [0.001, 5.0] and widen at most to
[0.001, 10.0]. -/
theorem claim_C4_implied_vol_range (marketPrice S K T r : ℝ) (isCall : Bool) :
    (calculate_implied_volatility marketPrice S K T r isCall).elim True
      (fun v => 0.001 ≤ v ∧ v ≤ 10) := by
  have hmain : ∀ (intr : ℝ) (price : ℝ → ℝ),
      ((if max T (1 / (365 * 24)) ≤ 0 ∨ marketPrice ≤ 0 ∨ S ≤ 0 ∨ K ≤ 0 then
          none
        else if marketPrice < intr then none
        else if marketPrice < price 0.001 then some (0.001 : ℝ)
        else some (bisect price marketPrice 1e-6 100 0.001
            (if price 5 < marketPrice then 10 else 5))).elim True
        (fun v => 0.001 ≤ v ∧ v ≤ 10)) := by
    intro intr price
    split_ifs with h1 h2 h3 h4
    · trivial
    · trivial
    · exact ⟨le_refl _, by norm_num⟩
    · have hb := @bisect_mem price marketPrice (1e-6) 100 0.001 10 (by norm_num)
      exact ⟨hb.1, hb.2⟩
    · have hb := @bisect_mem price marketPrice (1e-6) 100 0.001 5 (by norm_num)
      exact ⟨hb.1, by linarith [hb.2]⟩
  cases isCall
  · exact hmain (max (K - S) 0)
      (fun v => bs_put_okxT S K (max T (1 / (365 * 24))) r v)
  · exact hmain (max (S - K) 0)
      (fun v => bs_call_okxT S K (max T (1 / (365 * 24))) r v)

lemma pctReturns_length (P : List ℝ) (w : ℕ) :
    (pctReturns P w).length = P.length - w := by
  simp [pctReturns]

lemma scanLoop_eq (P : List ℝ) : ∀ (fuel start : ℕ),
    scanLoop P fuel start =
      (List.range' start (min fuel (P.length + 1 - start))).filterMap
        (specWindowRecord P) := by
  intro fuel
  induction fuel with
  | zero => intro start; simp [scanLoop]
  | succ n ih =>
    intro start
    by_cases hs : P.length < start
    · have h0 : P.length + 1 - start = 0 := by omega
      simp [scanLoop, hs, h0]
    · have h1 : min (n + 1) (P.length + 1 - start)
          = min n (P.length + 1 - (start + 1)) + 1 := by omega
      rw [h1, List.range'_succ, List.filterMap_cons]
      have hloop : scanLoop P (n + 1) start =
          (if 1 < (pctReturns P start).length then
            [⟨start, listMean (pctReturns P start),
              sampleStdev (pctReturns P start), (pctReturns P start).length⟩]
          else if (pctReturns P start).length = 1 then
            [⟨start, (pctReturns P start).headI, 0, 1⟩]
          else []) ++ scanLoop P n (start + 1) := by
        simp [scanLoop, hs]
      rw [hloop, ih]
      rcases hlen : (pctReturns P start).length with _ | _ | k <;>
        simp [specWindowRecord, hlen]

/-- C5: the scanner emits, for every window size w from 1 to min(W, N),
exactly the record the spec prescribes (mean and N-1-denominator sample
standard deviation when the return list has at least two elements, the single
return with stdev 0.0 when it has exactly one), and on the example series
[100, 101, 99, 102] with w = 1 the percentage returns are
[1, -200/101, 100/33], which print as [1.0, -1.9802, 3.0303] to the shown
precision. -/
theorem claim_C5_scanner_returns_mean_stdev :
    (∀ (P : List ℝ) (W : ℕ), scanRecords P W = specScan P W) ∧
    pctReturns [100, 101, 99, 102] 1 = [1, -200 / 101, 100 / 33] ∧
    |(-200 / 101 : ℝ) - (-1.9802)| < 0.0001 ∧
    |(100 / 33 : ℝ) - 3.0303| < 0.0001 := by
  refine ⟨fun P W => ?_, ?_, ?_, ?_⟩
  · unfold scanRecords specScan
    rw [scanLoop_eq]
    congr 1
  · unfold pctReturns
    norm_num [List.range']
  · rw [abs_sub_lt_iff]; norm_num
  · rw [abs_sub_lt_iff]; norm_num

lemma scanLoop_windows (P : List ℝ) : ∀ (fuel start : ℕ),
    (scanLoop P fuel start).map VolRecord.window =
      List.range' start (min fuel (P.length - start)) := by
  intro fuel
  induction fuel with
  | zero => intro start; simp [scanLoop]
  | succ n ih =>
    intro start
    by_cases hs : P.length < start
    · have h0 : P.length - start = 0 := by omega
      simp [scanLoop, hs, h0]
    · have hloop : scanLoop P (n + 1) start =
          (if 1 < (pctReturns P start).length then
            [⟨start, listMean (pctReturns P start),
              sampleStdev (pctReturns P start), (pctReturns P start).length⟩]
          else if (pctReturns P start).length = 1 then
            [⟨start, (pctReturns P start).headI, 0, 1⟩]
          else []) ++ scanLoop P n (start + 1) := by
        simp [scanLoop, hs]
      rw [hloop, List.map_append, ih]
      rw [pctReturns_length]
      by_cases hone : start < P.length
      · have h1 : min (n + 1) (P.length - start)
            = min n (P.length - (start + 1)) + 1 := by omega
        rw [h1, List.range'_succ]
        by_cases h2 : 1 < P.length - start
        · rw [if_pos h2]; rfl
        · have h3 : P.length - start = 1 := by omega
          rw [if_neg h2, if_pos h3]; rfl
      · have h3 : P.length - start = 0 := by omega
        have h4 : P.length - (start + 1) = 0 := by omega
        rw [h3, h4]
        norm_num

/-- C10: the scanner writes exactly one record per window size w with
1 ≤ w ≤ min(W, N-1), and none for w = N or larger: the window fields of its
output are precisely the list [1, ..., min(W, N-1)]. -/
theorem claim_C10_scanner_window_coverage (P : List ℝ) (W : ℕ) :
    (scanRecords P W).map VolRecord.window =
      List.range' 1 (min W (P.length - 1)) := by
  unfold scanRecords
  rw [scanLoop_windows]

lemma normal_cdf_zero : normal_cdf 0 = 0.5 * (1 + (1 - cdfPoly 1)) := by
  unfold normal_cdf
  norm_num

lemma normal_cdf_zero_pos : (0:ℝ) < normal_cdf 0 := by
  rw [normal_cdf_zero]
  unfold cdfPoly
  norm_num

/-- C1 counterexample: at S = 1, K = 1, T = 1, r = -1/2, σ = 1 the OKX
script's black_scholes_call does not return S·Φ(d1) - K·e^(-rT)·Φ(d2): the
source discounts the S·Φ(d1) term by e^(-rT) as well, and at this input the
two differ by Φ(0)·(e^(1/2) - 1) > 0. -/
theorem claim_C1_counterexample :
    black_scholes_call_okx 1 1 1 (-(1/2)) 1
      ≠ some (bs_call_claim_formula 1 1 1 (-(1/2)) 1) := by
  have hd1 : bs_d1 1 1 1 (-(1/2)) 1 = 0 := by
    unfold bs_d1
    rw [Real.sqrt_one]
    norm_num
  have hd2 : bs_d2 1 1 1 (-(1/2)) 1 = -1 := by
    unfold bs_d2
    rw [hd1, Real.sqrt_one]
    norm_num
  have hphi0 := normal_cdf_zero_pos
  have hexp : (1:ℝ) < Real.exp (1/2) := Real.one_lt_exp_iff.2 (by norm_num)
  unfold black_scholes_call_okx bs_call_claim_formula
  rw [if_neg (by norm_num), if_neg (by norm_num), if_neg (by norm_num)]
  rw [hd1, hd2]
  have harg : -(-(1/2) * 1) = (1/2 : ℝ) := by norm_num
  rw [harg]
  intro heq
  have heq' := Option.some.inj heq
  nlinarith [heq', mul_pos hphi0 (sub_pos.2 hexp)]

/-- C1 amended: the calculator's black_scholes_call returns
S·Φ(d1) - K·e^(-rT)·Φ(d2) for all S, K, T, σ > 0 and every r, while the OKX
script's black_scholes_call returns e^(-rT)·(S·Φ(d1) - K·Φ(d2)), i.e. it
discounts both legs; the two coincide only when r·T = 0. -/
theorem claim_C1_call_formula (S K T r sigma : ℝ)
    (hS : 0 < S) (hK : 0 < K) (hT : 0 < T) (hsig : 0 < sigma) :
    black_scholes_call_calc S K T r sigma
        = some (bs_call_claim_formula S K T r sigma) ∧
    black_scholes_call_okx S K T r sigma
        = some (Real.exp (-(r * T)) *
            (S * normal_cdf (bs_d1 S K T r sigma)
              - K * normal_cdf (bs_d2 S K T r sigma))) := by
  have hTn : ¬ T ≤ 0 := not_le.2 hT
  have hSK : ¬ (S / K ≤ 0) := not_le.2 (div_pos hS hK)
  have hs0 : sigma ≠ 0 := ne_of_gt hsig
  have hsT : ¬ (sigma * Real.sqrt T = 0) := by
    have : 0 < Real.sqrt T := Real.sqrt_pos.2 hT
    positivity
  unfold black_scholes_call_calc black_scholes_call_okx bs_call_claim_formula
  rw [if_neg hTn, if_neg hSK, if_neg hsT, if_neg hTn, if_neg hs0, if_neg hSK]
  exact ⟨rfl, by rw [Option.some.injEq]; ring⟩

theorem claim_C1_call_formula_witness :
    (0:ℝ) < 1 ∧
      (black_scholes_call_calc 1 1 1 0 1
          = some (bs_call_claim_formula 1 1 1 0 1) ∧
        black_scholes_call_okx 1 1 1 0 1
          = some (Real.exp (-(0 * 1)) *
              (1 * normal_cdf (bs_d1 1 1 1 0 1)
                - 1 * normal_cdf (bs_d2 1 1 1 0 1)))) :=
  ⟨by norm_num,
    claim_C1_call_formula 1 1 1 0 1 (by norm_num) (by norm_num) (by norm_num)
      (by norm_num)⟩

/-- C2 counterexample: at S = 1, K = 1, T = 1, r = 0, σ = 0 the calculator's
black_scholes_call does not return max(S-K, 0): it reaches the division by
σ·√T = 0 and raises ZeroDivisionError (modelled as none), because this
variant has no σ = 0 guard. -/
theorem claim_C2_counterexample :
    ¬ (black_scholes_call_calc 1 1 1 0 0 = some (max (1 - 1) 0)) := by
  unfold black_scholes_call_calc
  rw [if_neg (by norm_num), if_neg (by norm_num), if_pos (by simp)]
  simp

/-- C2 amended: for every S, K, T > 0 and every r, the OKX script's
black_scholes_call at σ = 0 returns max(S-K, 0) without reaching the
division, but the calculator's black_scholes_call at σ = 0 raises
ZeroDivisionError on the division by σ·√T = 0 (it lacks the σ = 0 guard). -/
theorem claim_C2_sigma_zero (S K T r : ℝ)
    (hS : 0 < S) (hK : 0 < K) (hT : 0 < T) :
    black_scholes_call_okx S K T r 0 = some (max (S - K) 0) ∧
    black_scholes_call_calc S K T r 0 = none := by
  constructor
  · unfold black_scholes_call_okx
    rw [if_neg (not_le.2 hT), if_pos rfl]
  · unfold black_scholes_call_calc
    rw [if_neg (not_le.2 hT), if_neg (not_le.2 (div_pos hS hK)),
      if_pos (by simp)]

theorem claim_C2_sigma_zero_witness :
    (0:ℝ) < 1 ∧
      (black_scholes_call_okx 1 1 1 0 0 = some (max (1 - 1) 0) ∧
        black_scholes_call_calc 1 1 1 0 0 = none) :=
  ⟨by norm_num,
    claim_C2_sigma_zero 1 1 1 0 (by norm_num) (by norm_num) (by norm_num)⟩

/-- The t-value of normal_cdf as a function of the magnitude of the
argument. -/
def tOf (m : ℝ) : ℝ := 1 / (1 + 0.3275911 * (m / Real.sqrt 2))

lemma sqrt2_gt : (1.414213562 : ℝ) < Real.sqrt 2 :=
  (Real.lt_sqrt (by norm_num)).2 (by norm_num)

lemma sqrt2_lt : Real.sqrt 2 < (1.414213563 : ℝ) :=
  (Real.sqrt_lt' (by norm_num)).2 (by norm_num)

lemma tOf_pos {m : ℝ} (hm : 0 ≤ m) : 0 < tOf m := by
  unfold tOf
  have h : 0 ≤ m / Real.sqrt 2 := div_nonneg hm (Real.sqrt_nonneg 2)
  have : (0:ℝ) < 1 + 0.3275911 * (m / Real.sqrt 2) := by nlinarith
  positivity

lemma tOf_le_one {m : ℝ} (hm : 0 ≤ m) : tOf m ≤ 1 := by
  unfold tOf
  have h : 0 ≤ m / Real.sqrt 2 := div_nonneg hm (Real.sqrt_nonneg 2)
  rw [div_le_one (by nlinarith)]
  nlinarith

lemma tOf_ub {m c : ℝ} (hcm : c ≤ m) (hc : 0 < c) :
    tOf m ≤ 1 / (1 + 0.3275911 * (c / 1.414213563)) := by
  unfold tOf
  have hs2 : (0:ℝ) < Real.sqrt 2 := Real.sqrt_pos.2 (by norm_num)
  have hx1 : c / 1.414213563 ≤ c / Real.sqrt 2 :=
    div_le_div_of_nonneg_left hc.le hs2 sqrt2_lt.le
  have hx2 : c / Real.sqrt 2 ≤ m / Real.sqrt 2 :=
    (div_le_div_right hs2).2 hcm
  have h1 : (0:ℝ) < 1 + 0.3275911 * (c / 1.414213563) := by positivity
  apply one_div_le_one_div_of_le h1
  nlinarith

lemma tOf_lb {m c : ℝ} (hmc : m ≤ c) (hm : 0 ≤ m) :
    1 / (1 + 0.3275911 * (c / 1.414213562)) ≤ tOf m := by
  unfold tOf
  have hs2 : (0:ℝ) < Real.sqrt 2 := Real.sqrt_pos.2 (by norm_num)
  have hc : 0 ≤ c := le_trans hm hmc
  have hx1 : m / Real.sqrt 2 ≤ c / Real.sqrt 2 :=
    (div_le_div_right hs2).2 hmc
  have hx2 : c / Real.sqrt 2 ≤ c / 1.414213562 :=
    div_le_div_of_nonneg_left hc (by norm_num) sqrt2_gt.le
  have h0 : 0 ≤ m / Real.sqrt 2 := div_nonneg hm hs2.le
  have h1 : (0:ℝ) < 1 + 0.3275911 * (m / Real.sqrt 2) := by nlinarith
  apply one_div_le_one_div_of_le h1
  nlinarith

lemma exp_neg_le {y c : ℝ} (n : ℕ) (hn : 0 < n) (hcy : c ≤ y) (hc : 0 ≤ c) :
    Real.exp (-y) ≤ 1 / (1 + c / n) ^ n := by
  have hne : (n:ℝ) ≠ 0 := Nat.cast_ne_zero.2 hn.ne'
  have hcn : (0:ℝ) ≤ c / n := by positivity
  have h2 : (1 + c / n) ^ n ≤ Real.exp c := by
    calc (1 + c / n) ^ n ≤ Real.exp (c / n) ^ n := by
          apply pow_le_pow_left (by linarith)
          linarith [Real.add_one_le_exp (c / n)]
      _ = Real.exp (n * (c / n)) := (Real.exp_nat_mul _ n).symm
      _ = Real.exp c := by rw [mul_div_cancel₀ c hne]
  have h1 : Real.exp (-y) ≤ Real.exp (-c) := Real.exp_le_exp.2 (by linarith)
  have h3 : Real.exp (-c) = 1 / Real.exp c := by
    rw [Real.exp_neg, one_div]
  have h4 : (0:ℝ) < (1 + c / n) ^ n := by positivity
  calc Real.exp (-y) ≤ 1 / Real.exp c := by rw [← h3]; exact h1
    _ ≤ 1 / (1 + c / n) ^ n := one_div_le_one_div_of_le h4 h2

lemma exp_neg_ge {y c : ℝ} (n : ℕ) (hn : 0 < n) (hyc : y ≤ c) (hcn : c ≤ n) :
    (1 - c / n) ^ n ≤ Real.exp (-y) := by
  have hne : (n:ℝ) ≠ 0 := Nat.cast_ne_zero.2 hn.ne'
  have hnpos : (0:ℝ) < n := Nat.cast_pos.2 hn
  have h0 : 0 ≤ 1 - c / n := by
    rw [sub_nonneg, div_le_one hnpos]
    exact hcn
  have key : 1 - c / n ≤ Real.exp (-(c / n)) := by
    linarith [Real.add_one_le_exp (-(c / n))]
  have h2 : (1 - c / n) ^ n ≤ Real.exp (-c) := by
    calc (1 - c / n) ^ n ≤ Real.exp (-(c / n)) ^ n := pow_le_pow_left h0 key n
      _ = Real.exp (n * -(c / n)) := (Real.exp_nat_mul _ n).symm
      _ = Real.exp (-c) := by rw [mul_neg, mul_div_cancel₀ c hne]
  have h1 : Real.exp (-c) ≤ Real.exp (-y) := Real.exp_le_exp.2 (by linarith)
  linarith

lemma normal_cdf_neg {d : ℝ} (hd : d < 0) :
    normal_cdf d = 0.5 * cdfPoly (tOf (-d)) * Real.exp (-(d ^ 2) / 2) := by
  unfold normal_cdf tOf
  rw [if_pos hd, abs_of_neg hd]
  have h2 : -d / Real.sqrt 2 * (-d / Real.sqrt 2) = d ^ 2 / 2 := by
    rw [div_mul_div_comm, Real.mul_self_sqrt (by norm_num)]
    ring
  rw [show -(-d / Real.sqrt 2) * (-d / Real.sqrt 2)
      = -(d ^ 2 / 2) by rw [neg_mul, h2]]
  ring_nf

lemma bs_d2_eq (K v : ℝ) : bs_d2 1 K 1 0 v = bs_d1 1 K 1 0 v - v := by
  unfold bs_d2
  rw [Real.sqrt_one, mul_one]

lemma bs_d1_mul (K v : ℝ) (hv : v ≠ 0) :
    bs_d1 1 K 1 0 v * v = -(Real.log K) + 0.5 * v ^ 2 := by
  unfold bs_d1
  rw [Real.sqrt_one, one_div, Real.log_inv]
  field_simp

/-- With S = 1, T = 1, r = 0 and d1 < 0 the OKX call price collapses to
0.5·e^(-d1²/2)·(P(t1) - P(t2)): the factor K·e^(-d2²/2) equals e^(-d1²/2)
exactly because d2² - d1² = 2·log K. -/
lemma price_repr {K v : ℝ} (hK : 0 < K) (hv : 0 < v)
    (hd1 : bs_d1 1 K 1 0 v < 0) :
    bs_call_okxT 1 K 1 0 v
      = 0.5 * Real.exp (-(bs_d1 1 K 1 0 v ^ 2) / 2)
          * (cdfPoly (tOf (-(bs_d1 1 K 1 0 v)))
            - cdfPoly (tOf (-(bs_d2 1 K 1 0 v)))) := by
  have hd2 : bs_d2 1 K 1 0 v < 0 := by
    rw [bs_d2_eq]; linarith
  unfold bs_call_okxT
  rw [if_neg (by norm_num), if_neg (ne_of_gt hv)]
  rw [normal_cdf_neg hd1, normal_cdf_neg hd2]
  have hmul := bs_d1_mul K v (ne_of_gt hv)
  have hKE : K * Real.exp (-(bs_d2 1 K 1 0 v ^ 2) / 2)
      = Real.exp (-(bs_d1 1 K 1 0 v ^ 2) / 2) := by
    have hlog : Real.log K + -(bs_d2 1 K 1 0 v ^ 2) / 2
        = -(bs_d1 1 K 1 0 v ^ 2) / 2 := by
      rw [bs_d2_eq]
      nlinarith [hmul]
    calc K * Real.exp (-(bs_d2 1 K 1 0 v ^ 2) / 2)
        = Real.exp (Real.log K) * Real.exp (-(bs_d2 1 K 1 0 v ^ 2) / 2) := by
          rw [Real.exp_log hK]
      _ = Real.exp (Real.log K + -(bs_d2 1 K 1 0 v ^ 2) / 2) :=
          (Real.exp_add _ _).symm
      _ = Real.exp (-(bs_d1 1 K 1 0 v ^ 2) / 2) := by rw [hlog]
  rw [show (-(0 * 1) : ℝ) = 0 by norm_num, Real.exp_zero]
  linear_combination (-(0.5 * cdfPoly (tOf (-(bs_d2 1 K 1 0 v))))) * hKE

lemma logK_bounds :
    (17.3286795 : ℝ) < Real.log 33554432 ∧
      Real.log 33554432 < 17.3286796 := by
  have h : (33554432:ℝ) = 2 ^ (25:ℕ) := by norm_num
  rw [h, Real.log_pow]
  constructor <;> nlinarith [Real.log_two_gt_d9, Real.log_two_lt_d9]

lemma md1_v2_bounds :
    (7.6643397 : ℝ) ≤ -(bs_d1 1 33554432 1 0 2) ∧
      -(bs_d1 1 33554432 1 0 2) ≤ 7.6643398 := by
  have hm := bs_d1_mul 33554432 2 (by norm_num)
  have hL := logK_bounds
  constructor <;> nlinarith [hm, hL.1, hL.2]

set_option maxHeartbeats 2000000 in
lemma mp_bounds :
    (5e-16 : ℝ) ≤ bs_call_okxT 1 33554432 1 0 2 ∧
      bs_call_okxT 1 33554432 1 0 2 ≤ 4e-12 := by
  obtain ⟨hm1, hm2⟩ := md1_v2_bounds
  have hd1neg : bs_d1 1 33554432 1 0 2 < 0 := by linarith
  have hmd2 : -(bs_d2 1 33554432 1 0 2) = -(bs_d1 1 33554432 1 0 2) + 2 := by
    rw [bs_d2_eq]; ring
  have hrepr := price_repr (by norm_num : (0:ℝ) < 33554432)
    (by norm_num : (0:ℝ) < 2) hd1neg
  have hb2l : (9.6643397:ℝ) ≤ -(bs_d1 1 33554432 1 0 2) + 2 := by linarith
  have hb2u : -(bs_d1 1 33554432 1 0 2) + 2 ≤ 9.6643398 := by linarith
  have ht1u : tOf (-(bs_d1 1 33554432 1 0 2)) ≤ 0.36032 := by
    refine le_trans (tOf_ub hm1 (by norm_num)) ?_
    norm_num
  have ht1l : (0.36031:ℝ) ≤ tOf (-(bs_d1 1 33554432 1 0 2)) := by
    refine le_trans ?_ (tOf_lb hm2 (by linarith))
    norm_num
  have ht2u : tOf (-(bs_d2 1 33554432 1 0 2)) ≤ 0.30877 := by
    rw [hmd2]
    refine le_trans (tOf_ub hb2l (by norm_num)) ?_
    norm_num
  have ht2l : (0.30876:ℝ) ≤ tOf (-(bs_d2 1 33554432 1 0 2)) := by
    rw [hmd2]
    refine le_trans ?_ (tOf_lb hb2u (by linarith))
    norm_num
  have hfac := cdfPoly_sub_factor (tOf (-(bs_d2 1 33554432 1 0 2)))
    (tOf (-(bs_d1 1 33554432 1 0 2)))
  have hS1 : (0.3:ℝ) ≤ cdfPolyS (tOf (-(bs_d2 1 33554432 1 0 2)))
      (tOf (-(bs_d1 1 33554432 1 0 2))) :=
    cdfPolyS_lb_box1 (by linarith) (by linarith) (by linarith)
  have hS2 : cdfPolyS (tOf (-(bs_d2 1 33554432 1 0 2)))
      (tOf (-(bs_d1 1 33554432 1 0 2))) ≤ 0.5 :=
    cdfPolyS_ub_box1 (by linarith) (by linarith) (by linarith)
  have hD_lb : (0.015462:ℝ) ≤ cdfPoly (tOf (-(bs_d1 1 33554432 1 0 2)))
      - cdfPoly (tOf (-(bs_d2 1 33554432 1 0 2))) := by
    rw [hfac]
    have h1 : (0.05154:ℝ) ≤ tOf (-(bs_d1 1 33554432 1 0 2))
        - tOf (-(bs_d2 1 33554432 1 0 2)) := by linarith
    nlinarith [mul_le_mul h1 hS1 (by norm_num) (by linarith)]
  have hD_ub : cdfPoly (tOf (-(bs_d1 1 33554432 1 0 2)))
      - cdfPoly (tOf (-(bs_d2 1 33554432 1 0 2))) ≤ 0.02578 := by
    rw [hfac]
    have h1 : tOf (-(bs_d1 1 33554432 1 0 2))
        - tOf (-(bs_d2 1 33554432 1 0 2)) ≤ 0.05156 := by linarith
    nlinarith [mul_le_mul h1 hS2 (by linarith) (by norm_num)]
  have hy1 : (29.371:ℝ) ≤ bs_d1 1 33554432 1 0 2 ^ 2 / 2 := by nlinarith
  have hy2 : bs_d1 1 33554432 1 0 2 ^ 2 / 2 ≤ 29.3711 := by nlinarith
  have harg : (-(bs_d1 1 33554432 1 0 2 ^ 2) / 2 : ℝ)
      = -(bs_d1 1 33554432 1 0 2 ^ 2 / 2) := by ring
  have hE_lb : (7e-14:ℝ) ≤ Real.exp (-(bs_d1 1 33554432 1 0 2 ^ 2) / 2) := by
    rw [harg]
    refine le_trans ?_ (exp_neg_ge 512 (by norm_num) hy2 (by norm_num))
    norm_num
  have hE_ub : Real.exp (-(bs_d1 1 33554432 1 0 2 ^ 2) / 2) ≤ 2.8e-10 := by
    rw [harg]
    refine le_trans (exp_neg_le 40 (by norm_num) hy1 (by norm_num)) ?_
    norm_num
  rw [hrepr]
  constructor
  · nlinarith [mul_le_mul hE_lb hD_lb (by norm_num) (Real.exp_pos _).le]
  · nlinarith [mul_le_mul hE_ub hD_ub (by linarith) (by norm_num : (0:ℝ) ≤ 2.8e-10)]

set_option maxHeartbeats 2000000 in
lemma priceLow_ub : bs_call_okxT 1 33554432 1 0 0.001 ≤ 9e-17 := by
  have hm := bs_d1_mul 33554432 0.001 (by norm_num)
  have hL := logK_bounds
  have hm1 : (17328:ℝ) ≤ -(bs_d1 1 33554432 1 0 0.001) := by
    nlinarith [hm, hL.1]
  have hd1neg : bs_d1 1 33554432 1 0 0.001 < 0 := by linarith
  have hrepr := price_repr (by norm_num : (0:ℝ) < 33554432)
    (by norm_num : (0:ℝ) < 0.001) hd1neg
  have hmd2 : -(bs_d2 1 33554432 1 0 0.001)
      = -(bs_d1 1 33554432 1 0 0.001) + 0.001 := by
    rw [bs_d2_eq]; ring
  have ht1pos : 0 ≤ tOf (-(bs_d1 1 33554432 1 0 0.001)) :=
    (tOf_pos (by linarith)).le
  have ht1le : tOf (-(bs_d1 1 33554432 1 0 0.001)) ≤ 1 :=
    tOf_le_one (by linarith)
  have ht2pos : 0 ≤ tOf (-(bs_d2 1 33554432 1 0 0.001)) := by
    rw [hmd2]; exact (tOf_pos (by linarith)).le
  have hP1 : cdfPoly (tOf (-(bs_d1 1 33554432 1 0 0.001))) ≤ 1 :=
    cdfPoly_le_one ht1pos ht1le
  have hP2 : 0 ≤ cdfPoly (tOf (-(bs_d2 1 33554432 1 0 0.001))) :=
    cdfPoly_nonneg ht2pos
  have hy1 : (150000000:ℝ) ≤ bs_d1 1 33554432 1 0 0.001 ^ 2 / 2 := by
    nlinarith [hm1, sq_nonneg (bs_d1 1 33554432 1 0 0.001 + 17328)]
  have harg : (-(bs_d1 1 33554432 1 0 0.001 ^ 2) / 2 : ℝ)
      = -(bs_d1 1 33554432 1 0 0.001 ^ 2 / 2) := by ring
  have hE_ub : Real.exp (-(bs_d1 1 33554432 1 0 0.001 ^ 2) / 2) ≤ 1.8e-16 := by
    rw [harg]
    refine le_trans (exp_neg_le 2 (by norm_num) hy1 (by norm_num)) ?_
    norm_num
  have hEpos := Real.exp_pos (-(bs_d1 1 33554432 1 0 0.001 ^ 2) / 2)
  rw [hrepr]
  nlinarith [mul_nonneg hEpos.le
    (by linarith : (0:ℝ) ≤ 1 - (cdfPoly (tOf (-(bs_d1 1 33554432 1 0 0.001)))
      - cdfPoly (tOf (-(bs_d2 1 33554432 1 0 0.001)))))]

set_option maxHeartbeats 2000000 in
lemma priceMid_bounds :
    0 ≤ bs_call_okxT 1 33554432 1 0 2.5005 ∧
      bs_call_okxT 1 33554432 1 0 2.5005 ≤ 4e-8 := by
  have hm := bs_d1_mul 33554432 2.5005 (by norm_num)
  have hL := logK_bounds
  have hm1 : (5.6798357:ℝ) ≤ -(bs_d1 1 33554432 1 0 2.5005) := by
    nlinarith [hm, hL.1]
  have hm2 : -(bs_d1 1 33554432 1 0 2.5005) ≤ 5.6798359 := by
    nlinarith [hm, hL.2]
  have hd1neg : bs_d1 1 33554432 1 0 2.5005 < 0 := by linarith
  have hrepr := price_repr (by norm_num : (0:ℝ) < 33554432)
    (by norm_num : (0:ℝ) < 2.5005) hd1neg
  have hmd2 : -(bs_d2 1 33554432 1 0 2.5005)
      = -(bs_d1 1 33554432 1 0 2.5005) + 2.5005 := by
    rw [bs_d2_eq]; ring
  have hb2l : (8.1803357:ℝ) ≤ -(bs_d1 1 33554432 1 0 2.5005) + 2.5005 := by
    linarith
  have hb2u : -(bs_d1 1 33554432 1 0 2.5005) + 2.5005 ≤ 8.1803359 := by
    linarith
  have ht1u : tOf (-(bs_d1 1 33554432 1 0 2.5005)) ≤ 0.43184 := by
    refine le_trans (tOf_ub hm1 (by norm_num)) ?_
    norm_num
  have ht1l : (0.43183:ℝ) ≤ tOf (-(bs_d1 1 33554432 1 0 2.5005)) := by
    refine le_trans ?_ (tOf_lb hm2 (by linarith))
    norm_num
  have ht2u : tOf (-(bs_d2 1 33554432 1 0 2.5005)) ≤ 0.34544 := by
    rw [hmd2]
    refine le_trans (tOf_ub hb2l (by norm_num)) ?_
    norm_num
  have ht2l : (0.34543:ℝ) ≤ tOf (-(bs_d2 1 33554432 1 0 2.5005)) := by
    rw [hmd2]
    refine le_trans ?_ (tOf_lb hb2u (by linarith))
    norm_num
  have hfac := cdfPoly_sub_factor (tOf (-(bs_d2 1 33554432 1 0 2.5005)))
    (tOf (-(bs_d1 1 33554432 1 0 2.5005)))
  have hS1 : (0.3:ℝ) ≤ cdfPolyS (tOf (-(bs_d2 1 33554432 1 0 2.5005)))
      (tOf (-(bs_d1 1 33554432 1 0 2.5005))) :=
    cdfPolyS_lb_box3 (by linarith) (by linarith) (by linarith)
  have hS2 : cdfPolyS (tOf (-(bs_d2 1 33554432 1 0 2.5005)))
      (tOf (-(bs_d1 1 33554432 1 0 2.5005))) ≤ 0.6 :=
    cdfPolyS_ub_box3 (by linarith) (by linarith) (by linarith)
  have hD_lb : (0:ℝ) ≤ cdfPoly (tOf (-(bs_d1 1 33554432 1 0 2.5005)))
      - cdfPoly (tOf (-(bs_d2 1 33554432 1 0 2.5005))) := by
    rw [hfac]
    nlinarith [hS1, ht1l, ht2u]
  have hD_ub : cdfPoly (tOf (-(bs_d1 1 33554432 1 0 2.5005)))
      - cdfPoly (tOf (-(bs_d2 1 33554432 1 0 2.5005))) ≤ 0.051846 := by
    rw [hfac]
    have h1 : tOf (-(bs_d1 1 33554432 1 0 2.5005))
        - tOf (-(bs_d2 1 33554432 1 0 2.5005)) ≤ 0.08641 := by linarith
    nlinarith [mul_le_mul h1 hS2 (by linarith) (by norm_num)]
  have hy1 : (16.13026:ℝ) ≤ bs_d1 1 33554432 1 0 2.5005 ^ 2 / 2 := by
    nlinarith [hm1, sq_nonneg (bs_d1 1 33554432 1 0 2.5005 + 5.6798357)]
  have harg : (-(bs_d1 1 33554432 1 0 2.5005 ^ 2) / 2 : ℝ)
      = -(bs_d1 1 33554432 1 0 2.5005 ^ 2 / 2) := by ring
  have hE_ub : Real.exp (-(bs_d1 1 33554432 1 0 2.5005 ^ 2) / 2) ≤ 1.4e-6 := by
    rw [harg]
    refine le_trans (exp_neg_le 40 (by norm_num) hy1 (by norm_num)) ?_
    norm_num
  have hEpos := Real.exp_pos (-(bs_d1 1 33554432 1 0 2.5005 ^ 2) / 2)
  rw [hrepr]
  constructor
  · positivity
  · nlinarith [mul_le_mul hE_ub hD_ub hD_lb (by norm_num : (0:ℝ) ≤ 1.4e-6)]

set_option maxHeartbeats 2000000 in
lemma priceHigh_lb : (0.04:ℝ) ≤ bs_call_okxT 1 33554432 1 0 5 := by
  have hm := bs_d1_mul 33554432 5 (by norm_num)
  have hL := logK_bounds
  have hm1 : (0.9657359:ℝ) ≤ -(bs_d1 1 33554432 1 0 5) := by
    nlinarith [hm, hL.1]
  have hm2 : -(bs_d1 1 33554432 1 0 5) ≤ 0.965736 := by
    nlinarith [hm, hL.2]
  have hd1neg : bs_d1 1 33554432 1 0 5 < 0 := by linarith
  have hrepr := price_repr (by norm_num : (0:ℝ) < 33554432)
    (by norm_num : (0:ℝ) < 5) hd1neg
  have hmd2 : -(bs_d2 1 33554432 1 0 5) = -(bs_d1 1 33554432 1 0 5) + 5 := by
    rw [bs_d2_eq]; ring
  have hb2l : (5.9657359:ℝ) ≤ -(bs_d1 1 33554432 1 0 5) + 5 := by linarith
  have hb2u : -(bs_d1 1 33554432 1 0 5) + 5 ≤ 5.965736 := by linarith
  have ht1u : tOf (-(bs_d1 1 33554432 1 0 5)) ≤ 0.8172 := by
    refine le_trans (tOf_ub hm1 (by norm_num)) ?_
    norm_num
  have ht1l : (0.81719:ℝ) ≤ tOf (-(bs_d1 1 33554432 1 0 5)) := by
    refine le_trans ?_ (tOf_lb hm2 (by linarith))
    norm_num
  have ht2u : tOf (-(bs_d2 1 33554432 1 0 5)) ≤ 0.41984 := by
    rw [hmd2]
    refine le_trans (tOf_ub hb2l (by norm_num)) ?_
    norm_num
  have ht2l : (0.41983:ℝ) ≤ tOf (-(bs_d2 1 33554432 1 0 5)) := by
    rw [hmd2]
    refine le_trans ?_ (tOf_lb hb2u (by linarith))
    norm_num
  have hfac := cdfPoly_sub_factor (tOf (-(bs_d2 1 33554432 1 0 5)))
    (tOf (-(bs_d1 1 33554432 1 0 5)))
  have hS1 : (0.4:ℝ) ≤ cdfPolyS (tOf (-(bs_d2 1 33554432 1 0 5)))
      (tOf (-(bs_d1 1 33554432 1 0 5))) :=
    cdfPolyS_lb_box2 (by linarith) (by linarith) (by linarith)
  have hD_lb : (0.15894:ℝ) ≤ cdfPoly (tOf (-(bs_d1 1 33554432 1 0 5)))
      - cdfPoly (tOf (-(bs_d2 1 33554432 1 0 5))) := by
    rw [hfac]
    have h1 : (0.39735:ℝ) ≤ tOf (-(bs_d1 1 33554432 1 0 5))
        - tOf (-(bs_d2 1 33554432 1 0 5)) := by linarith
    nlinarith [mul_le_mul h1 hS1 (by norm_num) (by linarith)]
  have hy2 : bs_d1 1 33554432 1 0 5 ^ 2 / 2 ≤ 0.46633 := by
    nlinarith [hm1, hm2]
  have hE_lb : (0.53367:ℝ) ≤ Real.exp (-(bs_d1 1 33554432 1 0 5 ^ 2) / 2) := by
    have h := Real.add_one_le_exp (-(bs_d1 1 33554432 1 0 5 ^ 2) / 2)
    linarith
  rw [hrepr]
  nlinarith [mul_le_mul hE_lb hD_lb (by norm_num) (Real.exp_pos _).le]

lemma bisect_step (price : ℝ → ℝ) (mp tol : ℝ) (fuel : ℕ) (lo hi : ℝ)
    (h : |price ((lo + hi) / 2) - mp| < tol) :
    bisect price mp tol (fuel + 1) lo hi = (lo + hi) / 2 := by
  simp only [bisect]
  rw [if_pos h]

/-- C6 counterexample: with S = 1, K = 2^25, T = 1, r = 0 and σ = 2 (inside
the claimed range [0.01, 2]), the round trip does not recover σ: the deep
out-of-the-money price is so small that the very first bisection midpoint
2.5005 already satisfies the 1e-6 price tolerance, so the solver returns
2.5005, which is not within 1e-4 of 2. -/
theorem claim_C6_counterexample :
    calculate_implied_volatility (bs_call_okxT 1 33554432 1 0 2) 1 33554432 1 0
        true = some 2.5005 ∧
      ¬ |(2.5005:ℝ) - 2| < 1e-4 := by
  have hmp := mp_bounds
  have hlow := priceLow_ub
  have hmid := priceMid_bounds
  have hhigh := priceHigh_lb
  constructor
  · simp only [calculate_implied_volatility, reduceIte]
    have hT : max (1:ℝ) (1 / (365 * 24)) = 1 := max_eq_left (by norm_num)
    rw [hT]
    have hintr : max ((1:ℝ) - 33554432) 0 = 0 := max_eq_right (by norm_num)
    rw [hintr]
    rw [if_neg (by push_neg; exact ⟨by norm_num, by linarith [hmp.1], by norm_num,
      by norm_num⟩)]
    rw [if_neg (by linarith [hmp.1] : ¬ bs_call_okxT 1 33554432 1 0 2 < 0)]
    rw [if_neg (by linarith [hmp.1, hlow] :
      ¬ bs_call_okxT 1 33554432 1 0 2 < bs_call_okxT 1 33554432 1 0 0.001)]
    rw [if_neg (by linarith [hmp.2, hhigh] :
      ¬ bs_call_okxT 1 33554432 1 0 5 < bs_call_okxT 1 33554432 1 0 2)]
    rw [show (100:ℕ) = 99 + 1 from rfl]
    rw [bisect_step _ _ _ _ _ _ (by
      rw [show ((0.001:ℝ) + 5) / 2 = 2.5005 by norm_num]
      rw [abs_sub_lt_iff]
      constructor
      · linarith [hmid.2, hmp.1]
      · linarith [hmp.2, hmid.1])]
    norm_num
  · rw [show (2.5005:ℝ) - 2 = 0.5005 by norm_num,
      abs_of_nonneg (by norm_num : (0:ℝ) ≤ 0.5005)]
    norm_num

lemma civ_some_of_valid (marketPrice S K T r : ℝ) (isCall : Bool)
    (hmp : 0 < marketPrice) (hS : 0 < S) (hK : 0 < K)
    (hi : ¬ marketPrice
      < (if isCall then max (S - K) 0 else max (K - S) 0)) :
    ∃ v, calculate_implied_volatility marketPrice S K T r isCall = some v ∧
      0.001 ≤ v ∧ v ≤ 10 := by
  have hmain : ∀ (intr : ℝ) (price : ℝ → ℝ), ¬ marketPrice < intr →
      ∃ v, (if max T (1 / (365 * 24)) ≤ 0 ∨ marketPrice ≤ 0 ∨ S ≤ 0 ∨ K ≤ 0
          then (none : Option ℝ)
        else if marketPrice < intr then none
        else if marketPrice < price 0.001 then some (0.001 : ℝ)
        else some (bisect price marketPrice 1e-6 100 0.001
            (if price 5 < marketPrice then 10 else 5))) = some v ∧
        0.001 ≤ v ∧ v ≤ 10 := by
    intro intr price hintr
    rw [if_neg (by
      rintro (h | h | h | h)
      exacts [minT_pos h, absurd h (not_le.2 hmp), absurd h (not_le.2 hS),
        absurd h (not_le.2 hK)])]
    rw [if_neg hintr]
    by_cases h3 : marketPrice < price 0.001
    · rw [if_pos h3]
      exact ⟨0.001, rfl, le_refl _, by norm_num⟩
    · rw [if_neg h3]
      by_cases h4 : price 5 < marketPrice
      · rw [if_pos h4]
        have hb := @bisect_mem price marketPrice (1e-6) 100 0.001 10
          (by norm_num)
        exact ⟨_, rfl, hb.1, hb.2⟩
      · rw [if_neg h4]
        have hb := @bisect_mem price marketPrice (1e-6) 100 0.001 5
          (by norm_num)
        exact ⟨_, rfl, hb.1, by linarith [hb.2]⟩
  cases isCall
  · exact hmain (max (K - S) 0)
      (fun v => bs_put_okxT S K (max T (1 / (365 * 24))) r v) hi
  · exact hmain (max (S - K) 0)
      (fun v => bs_call_okxT S K (max T (1 / (365 * 24))) r v) hi

/-- C6 amended: the round trip need not recover σ (see the counterexample,
where the solver exits on its 1e-6 price tolerance at the first midpoint).
What does hold is: whenever the generated price call(S,K,T,0,σ) is positive
and not below the intrinsic value, the solver resolves and returns some
volatility in [0.001, 10]. -/
theorem claim_C6_round_trip_amended (S K T sigma : ℝ)
    (hS : 0 < S) (hK : 0 < K) (hT : 0 < T)
    (hp : 0 < bs_call_okxT S K T 0 sigma)
    (hi : max (S - K) 0 ≤ bs_call_okxT S K T 0 sigma) :
    ∃ v, calculate_implied_volatility (bs_call_okxT S K T 0 sigma) S K T 0 true
        = some v ∧ 0.001 ≤ v ∧ v ≤ 10 :=
  civ_some_of_valid _ _ _ _ _ true hp hS hK (not_lt.2 hi)

theorem claim_C6_round_trip_amended_witness :
    (0:ℝ) < 1 ∧ (0:ℝ) < 33554432 ∧
      0 < bs_call_okxT 1 33554432 1 0 2 ∧
      max ((1:ℝ) - 33554432) 0 ≤ bs_call_okxT 1 33554432 1 0 2 ∧
      ∃ v, calculate_implied_volatility (bs_call_okxT 1 33554432 1 0 2)
          1 33554432 1 0 true = some v ∧ 0.001 ≤ v ∧ v ≤ 10 := by
  have hp : (0:ℝ) < bs_call_okxT 1 33554432 1 0 2 :=
    lt_of_lt_of_le (by norm_num) mp_bounds.1
  have hi : max ((1:ℝ) - 33554432) 0 ≤ bs_call_okxT 1 33554432 1 0 2 := by
    rw [max_eq_right (by norm_num)]
    exact hp.le
  exact ⟨by norm_num, by norm_num, hp, hi,
    claim_C6_round_trip_amended 1 33554432 1 2 (by norm_num) (by norm_num)
      (by norm_num) hp hi⟩

end Binance
